import Mathlib

/-!
# Shallow embedding of the `gotemp` template engine

`gotemp` is a small Go library built on `html/template`.  It loads, at
construction time, a fixed directory layout (`root.html`, `partials/*.html`,
`layouts/*.html`, `pages/<category>/<file>`), composing template sets by
clone-then-parse at every layer, and stores one compiled template set per page
in a registry keyed by `category/filename`.  Rendering looks the page up and
executes a named layout template against caller data.

The embedding below models:
* template definition sets as association lists of named fragment bodies;
* the underlying engine's execution (`ExecuteTemplate`) with a fuel bound,
  returning the produced output together with an optional execution error
  (lookup of an undefined name fails before anything is written);
* the filesystem as an inductive tree of named entries, with `os.ReadDir`
  and `filepath.Glob` semantics as used by the source (`Glob` on a pattern
  whose directory does not exist yields no matches; `ParseGlob` fails when
  the pattern matches no files, as in Go's standard library);
* the construction pipeline `loadRoot` / `loadPartials` / `loadLayouts` /
  `loadPages` / `New` and the renderer `RenderPage`, each translated from
  the corresponding Go function;
* a second, store-based model of the page-compilation loop in which template
  sets are mutable cells addressed by identifiers and `clone` allocates a
  fresh cell, used to state and prove the aliasing/no-leakage invariant.
-/

namespace Gotemp

/-- One node of a template fragment body: literal text, a data field
reference (`{{ .F }}`), or an invocation of another named template
(`{{ template "n" . }}`). -/
inductive Node where
  | text (s : String)
  | hole (field : String)
  | tmpl (name : String)
deriving DecidableEq, Repr

/-- A fragment body is a sequence of nodes. -/
abbrev Body := List Node

/-- A template definition set: named fragments that may reference each other
by name (Go's `*template.Template` viewed as its map of associated
templates). -/
abbrev TmplSet := List (String × Body)

/-- Render data: a string-keyed mapping (the `data any` argument, modelled as
the map case actually exercised by the library). -/
abbrev Data := List (String × String)

/-- Errors of the underlying execution engine. -/
inductive ExecErr where
  | undefined (name : String)
  | maxDepth
deriving DecidableEq, Repr

/-- Errors of the underlying parsing/loading engine (`html/template`):
a glob pattern matching no files, a matched entry that cannot be read as a
file, or a syntax error in a file. -/
inductive TmplErr where
  | noMatch (pattern : String)
  | readFail (name : String)
  | parseFail (name : String)
deriving DecidableEq, Repr

/-- Redefine (or add) one named fragment in a set; a later `define` for an
existing name replaces the earlier one, as in Go's template parser. -/
def setDef : TmplSet → String → Body → TmplSet
  | [], n, b => [(n, b)]
  | (m, c) :: rest, n, b =>
      if m = n then (n, b) :: rest else (m, c) :: setDef rest n b

/-- Parse the `define` blocks of one file into a set (in order, later
definitions winning). -/
def parseDefs (ts : TmplSet) (defs : List (String × Body)) : TmplSet :=
  defs.foldl (fun t d => setDef t d.1 d.2) ts

/-- Execute a body against a set and data.  Fuel bounds the total work (Go
bounds nesting depth by `maxExecDepth`; charging one unit per node is an
equivalent totality device that agrees with Go's executor on every
execution within the bound).  Returns the output produced so far together
with an optional error: on error the output already produced stands
(streaming, no rollback). -/
def execBody (ts : TmplSet) (data : Data) : Nat → Body → String × Option ExecErr
  | 0, _ => ("", some .maxDepth)
  | _ + 1, [] => ("", none)
  | fuel + 1, .text s :: rest =>
      let (r, e) := execBody ts data fuel rest
      (s ++ r, e)
  | fuel + 1, .hole f :: rest =>
      let (r, e) := execBody ts data fuel rest
      (((data.lookup f).getD "") ++ r, e)
  | fuel + 1, .tmpl n :: rest =>
      match ts.lookup n with
      | none => ("", some (.undefined n))
      | some body =>
          let (s, e) := execBody ts data fuel body
          match e with
          | some err => (s, some err)
          | none =>
              let (r, e') := execBody ts data fuel rest
              (s ++ r, e')

/-- Go's `maxExecDepth` execution bound. -/
def maxExecDepth : Nat := 100000

/-- `(*template.Template).ExecuteTemplate w name data`: look the name up in
the set; if undefined, fail before writing anything; otherwise execute the
body, appending its (possibly partial) output to the destination. -/
def ExecuteTemplate (ts : TmplSet) (w : String) (name : String) (data : Data) :
    String × Option ExecErr :=
  match ts.lookup name with
  | none => (w, some (.undefined name))
  | some body =>
      let (out, e) := execBody ts data maxExecDepth body
      (w ++ out, e)

/-- A filesystem entry: a file (whose template content is `none` when the
file has a syntax error, `some defs` when it parses to those `define`
blocks), or a directory of entries. -/
inductive Entry where
  | file (name : String) (content : Option (List (String × Body)))
  | dir (name : String) (entries : List Entry)

/-- Directory contents (as returned by `os.ReadDir`, in listing order). -/
abbrev Dirent := List Entry

/-- The name of an entry. -/
def Entry.name : Entry → String
  | .file n _ => n
  | .dir n _ => n

/-- Whether an entry is a directory (`DirEntry.IsDir`). -/
def Entry.isDir : Entry → Bool
  | .file _ _ => false
  | .dir _ _ => true

/-- Look an entry up by name in a directory. -/
def findEntry : Dirent → String → Option Entry
  | [], _ => none
  | e :: rest, n => if e.name = n then some e else findEntry rest n

/-- Does the second character list start with the first? -/
def listStarts : List Char → List Char → Bool
  | [], _ => true
  | _ :: _, [] => false
  | a :: as, b :: bs => a = b && listStarts as bs

/-- Does the file name match the glob pattern `*.html`, i.e. end with
`.html`?  (Defined over the character lists so that it evaluates by
definitional reduction.) -/
def matchesHtmlGlob (name : String) : Bool :=
  listStarts ".html".data.reverse name.data.reverse

/-- `filepath.Glob (sub ++ "/*.html")` relative to a base directory: the
entries of subdirectory `sub` whose names end in `.html`; a missing
subdirectory yields no matches (Go's `Glob` ignores nonexistent
directories). -/
def glob (base : Dirent) (sub : String) : List Entry :=
  match findEntry base sub with
  | some (.dir _ es) => es.filter (fun e => matchesHtmlGlob e.name)
  | _ => []

/-- Parse a list of matched entries into a set, in order (`parseFiles`):
a directory cannot be read as a file, a file with a syntax error fails,
otherwise its definitions are added. -/
def parseEntries (ts : TmplSet) : List Entry → Except TmplErr TmplSet
  | [] => .ok ts
  | .dir n _ :: _ => .error (.readFail n)
  | .file n none :: _ => .error (.parseFail n)
  | .file _ (some defs) :: rest => parseEntries (parseDefs ts defs) rest

/-- `(*template.Template).ParseGlob`: glob the pattern; fail if it matches
no files (exactly as Go's `html/template` does); otherwise parse every
match into the set. -/
def ParseGlob (ts : TmplSet) (base : Dirent) (sub : String) :
    Except TmplErr TmplSet :=
  match glob base sub with
  | [] => .error (.noMatch (sub ++ "/*.html"))
  | ms => parseEntries ts ms

/-- `clone` on a template set.  Go's `Clone` deep-copies the namespace; it
can only fail after the template has executed, which never happens during
construction, so the value-level model is the identity copy. -/
def clone (ts : TmplSet) : TmplSet := ts

/-- Construction-time errors, wrapping the failing phase exactly as the
source wraps them with `fmt.Errorf` context. -/
inductive LoadError where
  | rootFailed (e : TmplErr)
  | partialsFailed (e : TmplErr)
  | layoutsFailed (e : TmplErr)
  | pagesDirFailed
  | subDirFailed (dirName : String)
  | pageParseFailed (name : String)
deriving DecidableEq, Repr

/-- `loadRoot`: `template.ParseGlob(basePath ++ "/root.html")` — the literal
pattern matches the entry named `root.html` if it exists (file or
directory); no match is an error, and the match is parsed into an empty
set. -/
def loadRoot (base : Dirent) : Except TmplErr TmplSet :=
  match findEntry base "root.html" with
  | none => .error (.noMatch "root.html")
  | some e => parseEntries [] [e]

/-- `loadPartials`: clone the root set, then `ParseGlob` the pattern
`partials/*.html` into the clone. -/
def loadPartials (base : Dirent) (root : TmplSet) : Except TmplErr TmplSet :=
  ParseGlob (clone root) base "partials"

/-- `loadLayouts`: clone the partials set, then `ParseGlob` the pattern
`layouts/*.html` into the clone. -/
def loadLayouts (base : Dirent) (partials : TmplSet) : Except TmplErr TmplSet :=
  ParseGlob (clone partials) base "layouts"

/-- The inner loop of `loadPages` over the files of one category
subdirectory: directories at the leaf level are skipped; each file is parsed
into a fresh clone of the layout set and stored under `dirName/fileName`;
a parse failure aborts everything. -/
def compilePageFiles (layouts : TmplSet) (dirName : String) :
    List Entry → Except LoadError (List (String × TmplSet))
  | [] => .ok []
  | .dir _ _ :: rest => compilePageFiles layouts dirName rest
  | .file fn content :: rest =>
      match content with
      | none => .error (.pageParseFailed (dirName ++ "/" ++ fn))
      | some defs => do
          let ps ← compilePageFiles layouts dirName rest
          .ok ((dirName ++ "/" ++ fn, parseDefs (clone layouts) defs) :: ps)

/-- The outer loop of `loadPages` over the entries of the pages directory:
`os.ReadDir` of each entry — failing when the entry is a regular file —
then the per-file loop. -/
def compileCategories (layouts : TmplSet) :
    List Entry → Except LoadError (List (String × TmplSet))
  | [] => .ok []
  | .file n _ :: _ => .error (.subDirFailed n)
  | .dir n es :: rest => do
      let ps ← compilePageFiles layouts n es
      let rest' ← compileCategories layouts rest
      .ok (ps ++ rest')

/-- `loadPages`: root, then partials, then layouts, then `os.ReadDir` of the
pages directory and the compile loops; any failure aborts with the wrapped
error. -/
def loadPages (base : Dirent) : Except LoadError (List (String × TmplSet)) := do
  let root ← (loadRoot base).mapError .rootFailed
  let partials ← (loadPartials base root).mapError .partialsFailed
  let layouts ← (loadLayouts base partials).mapError .layoutsFailed
  match findEntry base "pages" with
  | some (.dir _ entries) => compileCategories layouts entries
  | _ => .error .pagesDirFailed

/-- The engine instance: the stored base path and the page registry
(modelled as the association list built in compilation order; its keys are
distinct for any real directory tree, see `pagesKeys_nodup`). -/
structure Engine where
  basePath : String
  pages : List (String × TmplSet)
deriving DecidableEq, Repr

/-- `New(basePath)` over a filesystem: run `loadPages` and return the
fully-populated engine, or the first error. -/
def New (basePath : String) (base : Dirent) : Except LoadError Engine := do
  let ps ← loadPages base
  .ok ⟨basePath, ps⟩

/-- Render-time errors: an unknown page key, or an error surfaced from the
underlying engine's execution. -/
inductive RenderError where
  | notFound (page : String)
  | exec (e : ExecErr)
deriving DecidableEq, Repr

/-- `RenderPage(w, layout, page, data)`: look the page key up in the
registry; if absent, fail without touching the destination; otherwise
execute the named layout in that page's set.  The destination is modelled
as the string written so far; the method's receiver is returned explicitly
(pointer-receiver state passing) to make frame reasoning expressible. -/
def RenderPage (tc : Engine) (w : String) (layout page : String) (data : Data) :
    (String × Option RenderError) × Engine :=
  match tc.pages.lookup page with
  | none => ((w, some (.notFound page)), tc)
  | some ts =>
      match ExecuteTemplate ts w layout data with
      | (w', none) => ((w', none), tc)
      | (w', some e) => ((w', some (.exec e)), tc)

/-! ## Store-based model of the page-compilation loop

In Go, `*template.Template` values are mutable heap objects: `ParseFiles`
mutates the receiver in place, and `Clone` allocates an independent copy.
To state the aliasing invariant (clone-before-parse, no fragment leakage
between the shared layout set and the per-page sets) the loop of
`loadPages` is modelled a second time over an explicit store of template
sets addressed by identifiers; the pure model above is its value-level
projection. -/

/-- A heap of template sets; an identifier is an index into it. -/
abbrev Store := List TmplSet

/-- Read the set stored in cell `i` (empty set when out of range). -/
def Store.getSet : Store → Nat → TmplSet
  | [], _ => []
  | ts :: _, 0 => ts
  | _ :: σ, i + 1 => Store.getSet σ i

/-- Overwrite cell `i` in place. -/
def Store.setSet : Store → Nat → TmplSet → Store
  | [], _, _ => []
  | _ :: σ, 0, x => x :: σ
  | t :: σ, i + 1, x => t :: Store.setSet σ i x

/-- `Clone` as a heap operation: allocate a fresh cell holding a copy of
cell `i`, and return its identifier. -/
def cloneOp (σ : Store) (i : Nat) : Store × Nat :=
  (σ ++ [σ.getSet i], σ.length)

/-- `ParseFiles` as a heap operation: mutate cell `i` in place by parsing
the given definitions into it. -/
def parseFilesOp (σ : Store) (i : Nat) (defs : List (String × Body)) : Store :=
  σ.setSet i (parseDefs (σ.getSet i) defs)

/-- Heap-level inner loop of `loadPages` over one category's files: for
each non-directory file, `clone` the layout cell, then `ParseFiles` the
file into the fresh cell, recording `dirName/fileName ↦ cell id`. -/
def compilePageFilesSt (lid : Nat) (dirName : String) :
    Store → List Entry → Except LoadError (Store × List (String × Nat))
  | σ, [] => .ok (σ, [])
  | σ, .dir _ _ :: rest => compilePageFilesSt lid dirName σ rest
  | σ, .file fn content :: rest =>
      let (σ1, newId) := cloneOp σ lid
      match content with
      | none => .error (.pageParseFailed (dirName ++ "/" ++ fn))
      | some defs =>
          let σ2 := parseFilesOp σ1 newId defs
          match compilePageFilesSt lid dirName σ2 rest with
          | .error e => .error e
          | .ok (σ3, ps) => .ok (σ3, (dirName ++ "/" ++ fn, newId) :: ps)

/-- Heap-level outer loop of `loadPages` over the pages directory's
entries. -/
def compileCategoriesSt (lid : Nat) :
    Store → List Entry → Except LoadError (Store × List (String × Nat))
  | σ, [] => .ok (σ, [])
  | _, .file n _ :: _ => .error (.subDirFailed n)
  | σ, .dir n es :: rest =>
      match compilePageFilesSt lid n σ es with
      | .error e => .error e
      | .ok (σ1, ps) =>
          match compileCategoriesSt lid σ1 rest with
          | .error e => .error e
          | .ok (σ2, ps') => .ok (σ2, ps ++ ps')

/-! ## Spec-side characterizations

The following definitions transcribe the *spec's words* (not the code);
they are compared with the source-derived definitions in the claim
theorems. -/

/-- An entry is a file that parses. -/
def entryParses : Entry → Bool
  | .file _ (some _) => true
  | _ => false

/-- An entry at the leaf level is acceptable: a directory (skipped) or a
file that parses. -/
def leafOk : Entry → Bool
  | .dir _ _ => true
  | .file _ content => content.isSome

/-- A top-level entry of the pages directory is acceptable: a readable
(listable) directory all of whose leaf entries are acceptable. -/
def catOk : Entry → Bool
  | .file _ _ => false
  | .dir _ fs => fs.all leafOk

/-- Following the spec's words: `root.html` exists directly in the base
directory and parses. -/
def specRootOk (base : Dirent) : Bool :=
  match findEntry base "root.html" with
  | some (.file _ (some _)) => true
  | _ => false

/-- Following the spec's words: the pages directory exists and all of its
contents are readable and parseable (every top-level entry can be listed,
i.e. is a directory, and every leaf file parses; leaf directories are
skipped). -/
def specPagesOk (base : Dirent) : Bool :=
  match findEntry base "pages" with
  | some (.dir _ cats) => cats.all catOk
  | _ => false

/-- The glob `sub/*.html` matches at least one entry and every match is a
parseable file (the success condition of `ParseGlob`). -/
def globParses (base : Dirent) (sub : String) : Bool :=
  match glob base sub with
  | [] => false
  | ms => ms.all entryParses

/-- Following the spec's words: the keys the registry must contain for one
category — one per non-directory leaf file, in listing order, joined as
`category/filename`; leaf directories contribute nothing. -/
def leafKeysOfCat (cn : String) : List Entry → List String
  | [] => []
  | .dir _ _ :: rest => leafKeysOfCat cn rest
  | .file fn _ :: rest => (cn ++ "/" ++ fn) :: leafKeysOfCat cn rest

/-- Following the spec's words: all keys the registry must contain, per
category in listing order. -/
def leafKeys : List Entry → List String
  | [] => []
  | .file _ _ :: rest => leafKeys rest
  | .dir cn fs :: rest => leafKeysOfCat cn fs ++ leafKeys rest

/-- Well-formedness of one pages-directory entry: if it is a category
directory, its entries' names are distinct and contain no `/`. -/
def wfEntry : Entry → Prop
  | .file _ _ => True
  | .dir _ fs =>
      (fs.map Entry.name).Nodup ∧ ∀ f ∈ fs, ¬ '/' ∈ (Entry.name f).data

/-- Well-formedness of a real pages directory tree: entry names within a
listing are distinct and contain no `/` (true of every on-disk directory). -/
def WfPages (cats : List Entry) : Prop :=
  (cats.map Entry.name).Nodup ∧
    ∀ c ∈ cats, (¬ '/' ∈ (Entry.name c).data) ∧ wfEntry c

/-! ## Concrete example filesystems -/

/-- A well-formed `root.html`: the `__start`/`__end` shell. -/
def rootFile : Entry :=
  .file "root.html"
    (some
      [("__start",
        [.text "<!DOCTYPE html>\n<html><head><title>", .hole "Title",
         .text "</title></head><body>"]),
       ("__end", [.text "</body></html>"])])

/-- A header partial. -/
def headerFile : Entry :=
  .file "_header.html" (some [("_header", [.text "<h1>Your APP!!</h1>"])])

/-- A layout referencing the shell, the header and the content block. -/
def appLayoutFile : Entry :=
  .file "app.html"
    (some
      [("app_layout",
        [.tmpl "__start", .tmpl "_header", .tmpl "content", .tmpl "__end"])])

/-- A home page defining the content block. -/
def indexFile : Entry :=
  .file "index.html"
    (some [("content", [.text "<h1>Homepage</h1>", .hole "Content"])])

/-- A complete, conforming template directory. -/
def exFS : Dirent :=
  [rootFile,
   .dir "partials" [headerFile],
   .dir "layouts" [appLayoutFile],
   .dir "pages" [.dir "home" [indexFile]]]

/-- The same directory with the `partials` directory removed (everything
else intact). -/
def exFSNoPartials : Dirent :=
  [rootFile,
   .dir "layouts" [appLayoutFile],
   .dir "pages" [.dir "home" [indexFile]]]

/-- The same directory with the `layouts` directory removed (everything
else intact). -/
def exFSNoLayouts : Dirent :=
  [rootFile,
   .dir "partials" [headerFile],
   .dir "pages" [.dir "home" [indexFile]]]

/-- The conforming directory with a stray regular file directly inside
`pages/`. -/
def exFSStrayFile : Dirent :=
  [rootFile,
   .dir "partials" [headerFile],
   .dir "layouts" [appLayoutFile],
   .dir "pages" [.file "stray.html" (some []), .dir "home" [indexFile]]]

/-- The root set produced by `loadRoot` on the example directories. -/
def exRootSet : TmplSet :=
  [("__start",
    [.text "<!DOCTYPE html>\n<html><head><title>", .hole "Title",
     .text "</title></head><body>"]),
   ("__end", [.text "</body></html>"])]

/-- The partials set produced from `exRootSet` on the example directories. -/
def exPartialsSet : TmplSet :=
  exRootSet ++ [("_header", [.text "<h1>Your APP!!</h1>"])]

/-- The layout set produced from `exPartialsSet` on the example
directories. -/
def exLayoutsSet : TmplSet :=
  exPartialsSet ++
    [("app_layout",
      [.tmpl "__start", .tmpl "_header", .tmpl "content", .tmpl "__end"])]

/-! ## Construction lemmas -/

/-- Reduction of `Except.isOk` on a success. -/
@[simp] theorem exceptIsOk_ok {ε α : Type} (a : α) :
    (Except.ok a : Except ε α).isOk = true := rfl

/-- Reduction of `Except.isOk` on a failure. -/
@[simp] theorem exceptIsOk_error {ε α : Type} (e : ε) :
    (Except.error e : Except ε α).isOk = false := rfl

/-- Reduction of the `Except` monad's bind on a success. -/
@[simp] theorem exceptBind_ok {ε α β : Type} (a : α) (f : α → Except ε β) :
    (do let x ← (Except.ok a : Except ε α); f x) = f a := rfl

/-- Reduction of the `Except` monad's bind on a failure. -/
@[simp] theorem exceptBind_error {ε α β : Type} (e : ε) (f : α → Except ε β) :
    (do let x ← (Except.error e : Except ε α); f x) = Except.error e := rfl

/-- Reduction of `Except.mapError` on a success. -/
@[simp] theorem exceptMapError_ok {ε ε' α : Type} (a : α) (f : ε → ε') :
    (Except.ok a : Except ε α).mapError f = Except.ok a := rfl

/-- Reduction of `Except.mapError` on a failure. -/
@[simp] theorem exceptMapError_error {ε ε' α : Type} (e : ε) (f : ε → ε') :
    (Except.error e : Except ε α).mapError f = Except.error (f e) := rfl

/-- `parseEntries` succeeds exactly when every matched entry is a file that
parses. -/
theorem parseEntries_isOk (es : List Entry) :
    ∀ ts, (parseEntries ts es).isOk = es.all entryParses := by
  induction es with
  | nil => intro ts; rfl
  | cons e rest ih =>
    intro ts
    cases e with
    | dir n es' => simp [parseEntries, entryParses]
    | file n c =>
      cases c with
      | none => simp [parseEntries, entryParses]
      | some defs => simp [parseEntries, entryParses, ih]

/-- `ParseGlob` succeeds exactly when the glob matches at least one entry
and every match parses. -/
theorem ParseGlob_isOk (ts : TmplSet) (base : Dirent) (sub : String) :
    (ParseGlob ts base sub).isOk = globParses base sub := by
  unfold ParseGlob globParses
  cases glob base sub with
  | nil => rfl
  | cons e ms => exact parseEntries_isOk _ _

/-- `loadRoot` succeeds exactly when `root.html` exists in the base
directory and parses. -/
theorem loadRoot_isOk (base : Dirent) :
    (loadRoot base).isOk = specRootOk base := by
  unfold loadRoot specRootOk
  cases findEntry base "root.html" with
  | none => rfl
  | some e =>
    cases e with
    | dir n es => rfl
    | file n c => cases c <;> rfl

/-- The per-category page loop succeeds exactly when every leaf entry is a
directory or a parseable file. -/
theorem compilePageFiles_isOk (lay : TmplSet) (dn : String) (fs : List Entry) :
    (compilePageFiles lay dn fs).isOk = fs.all leafOk := by
  induction fs with
  | nil => rfl
  | cons f rest ih =>
    cases f with
    | dir n es => simpa [compilePageFiles, leafOk] using ih
    | file fn c =>
      cases c with
      | none => simp [compilePageFiles, leafOk]
      | some defs =>
        simp only [List.all_cons, leafOk, Option.isSome_some, Bool.true_and]
        rw [← ih]
        cases h : compilePageFiles lay dn rest with
        | error e => simp [compilePageFiles, h]
        | ok ps => simp [compilePageFiles, h]

/-- The pages loop succeeds exactly when every top-level entry of the pages
directory is a directory all of whose leaf entries are acceptable. -/
theorem compileCategories_isOk (lay : TmplSet) (cats : List Entry) :
    (compileCategories lay cats).isOk = cats.all catOk := by
  induction cats with
  | nil => rfl
  | cons c rest ih =>
    cases c with
    | file n cc => simp [compileCategories, catOk]
    | dir n es =>
      simp only [List.all_cons, catOk]
      rw [← compilePageFiles_isOk lay n es, ← ih]
      cases h1 : compilePageFiles lay n es with
      | error e => simp [compileCategories, h1]
      | ok ps =>
        cases h2 : compileCategories lay rest with
        | error e => simp [compileCategories, h1, h2]
        | ok ps' => simp [compileCategories, h1, h2]

/-- `New` succeeds exactly when `loadPages` does. -/
theorem new_isOk_eq_loadPages (bp : String) (base : Dirent) :
    (New bp base).isOk = (loadPages base).isOk := by
  unfold New
  cases h : loadPages base <;> simp [h]

/-- The success condition of the whole construction sequence. -/
theorem loadPages_isOk_char (base : Dirent) :
    (loadPages base).isOk =
      (specRootOk base && globParses base "partials" &&
        globParses base "layouts" && specPagesOk base) := by
  unfold loadPages
  cases hr : loadRoot base with
  | error e =>
    have hs : specRootOk base = false := by rw [← loadRoot_isOk, hr]; rfl
    simp [hr, hs]
  | ok root =>
    have hs : specRootOk base = true := by rw [← loadRoot_isOk, hr]; rfl
    cases hp : loadPartials base root with
    | error e =>
      have hp' : globParses base "partials" = false := by
        rw [← ParseGlob_isOk (clone root)]
        rw [show ParseGlob (clone root) base "partials" = loadPartials base root from rfl, hp]
        rfl
      simp [hr, hp, hs, hp']
    | ok partials =>
      have hp' : globParses base "partials" = true := by
        rw [← ParseGlob_isOk (clone root)]
        rw [show ParseGlob (clone root) base "partials" = loadPartials base root from rfl, hp]
        rfl
      cases hl : loadLayouts base partials with
      | error e =>
        have hl' : globParses base "layouts" = false := by
          rw [← ParseGlob_isOk (clone partials)]
          rw [show ParseGlob (clone partials) base "layouts" = loadLayouts base partials from rfl,
            hl]
          rfl
        simp [hr, hp, hl, hs, hp', hl']
      | ok layouts =>
        have hl' : globParses base "layouts" = true := by
          rw [← ParseGlob_isOk (clone partials)]
          rw [show ParseGlob (clone partials) base "layouts" = loadLayouts base partials from rfl,
            hl]
          rfl
        simp only [hr, hp, hl, hs, hp', hl', exceptMapError_ok, exceptBind_ok,
          Bool.true_and]
        unfold specPagesOk
        cases hf : findEntry base "pages" with
        | none => rfl
        | some e =>
          cases e with
          | file n c => rfl
          | dir n cats => exact compileCategories_isOk layouts cats

/-- C2 (amended): for every base path, `New` succeeds if and only if
`root.html` exists directly in the base directory and parses, AND the glob
`partials/*.html` matches at least one entry with every match a parseable
file, AND the glob `layouts/*.html` likewise, AND the pages directory
exists with all of its contents readable and parseable.  (The claim's
original right-hand side omitted the partials and layouts conjuncts.) -/
theorem new_succeeds_iff (bp : String) (base : Dirent) :
    (New bp base).isOk =
      (specRootOk base && globParses base "partials" &&
        globParses base "layouts" && specPagesOk base) := by
  rw [new_isOk_eq_loadPages, loadPages_isOk_char]

/-- C2, counterexample to the claim as stated: in a base directory whose
`root.html` exists and parses and whose pages directory exists with all
contents readable and parseable — but which has no `partials` directory —
construction fails, so the claimed "if and only if" does not hold on the
code. -/
theorem new_missing_partials_cex :
    specRootOk exFSNoPartials = true ∧ specPagesOk exFSNoPartials = true ∧
      (New "templates" exFSNoPartials).isOk = false :=
  ⟨rfl, rfl, rfl⟩

/-- C3: the code, contrary to the claim (and to the repository's own README,
which documents `partials/` as optional), treats an absent `partials`
directory as a fatal construction error: with `root.html` loading
successfully, `loadPartials` fails with the underlying engine's
pattern-matches-no-files error, and `New` propagates it as a LoadError. -/
theorem loadPartials_missing_dir_fails :
    (loadRoot exFSNoPartials).isOk = true ∧
      loadPartials exFSNoPartials exRootSet =
        .error (.noMatch "partials/*.html") ∧
      New "templates" exFSNoPartials =
        .error (.partialsFailed (.noMatch "partials/*.html")) :=
  ⟨rfl, rfl, rfl⟩

/-- C4, counterexample to the claim as stated: in a base directory whose
root and partials load successfully but which has no `layouts` directory,
the layout-loading step does NOT succeed — construction itself fails, so
the absence does not surface only at render time. -/
theorem layouts_absent_fails_at_construction_cex :
    loadRoot exFSNoLayouts = .ok exRootSet ∧
      loadPartials exFSNoLayouts exRootSet = .ok exPartialsSet ∧
      New "templates" exFSNoLayouts =
        .error (.layoutsFailed (.noMatch "layouts/*.html")) :=
  ⟨rfl, rfl, rfl⟩

/-- C4 (amended): for every base path where root and partials load
successfully, if no entry matches `layouts/*.html` then the layout-loading
step itself fails — `New` returns the layouts-phase LoadError wrapping the
underlying engine's pattern-matches-no-files error; the absence is enforced
at construction time, not at render time. -/
theorem loadLayouts_no_match_construction_error (bp : String) (base : Dirent)
    (root partials : TmplSet)
    (hr : loadRoot base = .ok root)
    (hp : loadPartials base root = .ok partials)
    (hl : glob base "layouts" = []) :
    New bp base = .error (.layoutsFailed (.noMatch "layouts/*.html")) := by
  have hlay : loadLayouts base partials = .error (.noMatch "layouts/*.html") := by
    unfold loadLayouts ParseGlob
    rw [hl]
    rfl
  unfold New loadPages
  simp [hr, hp, hlay]

/-- Witness for `loadLayouts_no_match_construction_error` at a concrete
directory. -/
theorem loadLayouts_no_match_construction_error_witness :
    New "templates" exFSNoLayouts =
      .error (.layoutsFailed (.noMatch "layouts/*.html")) :=
  loadLayouts_no_match_construction_error "templates" exFSNoLayouts
    exRootSet exPartialsSet rfl rfl rfl

/-- C10: for every base path whose root, partials and layouts load
successfully, if the pages directory contains a regular (non-directory)
entry directly at its top level, `New` fails with a LoadError (the
`os.ReadDir` listing of that entry fails) instead of skipping the entry or
treating it as a page. -/
theorem stray_file_in_pages_fails (bp : String) (base : Dirent)
    (root partials layouts : TmplSet) (pn n : String) (cats : List Entry)
    (c : Option (List (String × Body)))
    (hr : loadRoot base = .ok root)
    (hp : loadPartials base root = .ok partials)
    (hl : loadLayouts base partials = .ok layouts)
    (hpages : findEntry base "pages" = some (.dir pn cats))
    (hmem : Entry.file n c ∈ cats) :
    (New bp base).isOk = false := by
  rw [new_isOk_eq_loadPages, loadPages_isOk_char]
  have hfalse : cats.all catOk = false := by
    cases hall : cats.all catOk with
    | false => rfl
    | true =>
      have := List.all_eq_true.mp hall _ hmem
      simp [catOk] at this
  have hs : specPagesOk base = false := by
    simp [specPagesOk, hpages, hfalse]
  rw [hs]
  simp

/-- Witness for `stray_file_in_pages_fails` at a concrete directory. -/
theorem stray_file_in_pages_fails_witness :
    (New "templates" exFSStrayFile).isOk = false :=
  stray_file_in_pages_fails "templates" exFSStrayFile
    exRootSet exPartialsSet exLayoutsSet "pages" "stray.html"
    [.file "stray.html" (some []), .dir "home" [indexFile]] (some [])
    rfl rfl rfl rfl (List.Mem.head _)

/-! ## Render-time claims -/

/-- The compiled template set of `home/index.html` on the example
directory. -/
def exPageSet : TmplSet :=
  exLayoutsSet ++ [("content", [.text "<h1>Homepage</h1>", .hole "Content"])]

/-- The engine built by `New` on the example directory. -/
def exEngine : Engine :=
  ⟨"templates", [("home/index.html", exPageSet)]⟩

/-- C1: for every engine built by `New` and every page key not present in
the page registry, `RenderPage` returns a NotFoundError identifying the
page key, writes nothing to the destination (the destination is returned
unchanged), and leaves the engine unchanged, for all layout names and data
values. -/
theorem renderPage_unknown_page_notFound (bp : String) (base : Dirent)
    (tc : Engine) (w layout page : String) (data : Data)
    (hN : New bp base = .ok tc)
    (habs : tc.pages.lookup page = none) :
    RenderPage tc w layout page data = ((w, some (.notFound page)), tc) := by
  unfold RenderPage
  rw [habs]

/-- Witness for `renderPage_unknown_page_notFound` at a concrete engine. -/
theorem renderPage_unknown_page_notFound_witness :
    RenderPage exEngine "" "app_layout" "nonexistent/page.html" [] =
      (("", some (.notFound "nonexistent/page.html")), exEngine) :=
  renderPage_unknown_page_notFound "templates" exFS exEngine ""
    "app_layout" "nonexistent/page.html" [] rfl rfl

/-- C5: for every engine built by `New` and every page key present in the
page registry, if the layout name does not name a template defined in that
page's set, `RenderPage` returns an ExecutionError (the underlying engine's
undefined-template error), for all data values. -/
theorem renderPage_unknown_layout_exec_error (bp : String) (base : Dirent)
    (tc : Engine) (w layout page : String) (data : Data) (ts : TmplSet)
    (hN : New bp base = .ok tc)
    (hpage : tc.pages.lookup page = some ts)
    (hlay : ts.lookup layout = none) :
    (RenderPage tc w layout page data).1 =
      (w, some (.exec (.undefined layout))) := by
  simp [RenderPage, hpage, ExecuteTemplate, hlay]

/-- Witness for `renderPage_unknown_layout_exec_error` at a concrete
engine. -/
theorem renderPage_unknown_layout_exec_error_witness :
    (RenderPage exEngine "" "nonexistent_layout" "home/index.html" []).1 =
      ("", some (.exec (.undefined "nonexistent_layout"))) :=
  renderPage_unknown_layout_exec_error "templates" exFS exEngine ""
    "nonexistent_layout" "home/index.html" [] exPageSet rfl rfl rfl

/-- C6: rendering is deterministic — for every valid
(layoutName, pageKey, data) triple, two `RenderPage` calls with identical
inputs into two separate fresh buffers produce byte-for-byte identical
output; more strongly, the result depends only on the page's registry
entry, so any two engines whose registries resolve the page key alike
render identically. -/
theorem renderPage_deterministic (tc tc' : Engine) (layout page : String)
    (data : Data)
    (hsame : tc.pages.lookup page = tc'.pages.lookup page)
    (hvalid : ((RenderPage tc "" layout page data).1).2 = none) :
    (RenderPage tc "" layout page data).1 =
      (RenderPage tc' "" layout page data).1 := by
  have h' : tc'.pages.lookup page = tc.pages.lookup page := hsame.symm
  unfold RenderPage
  rw [h']
  cases hl : tc.pages.lookup page with
  | none => rfl
  | some ts =>
    cases hE : ExecuteTemplate ts "" layout data with
    | mk w' e =>
      cases e with
      | none => simp [hE]
      | some err => simp [hE]

/-- Witness for `renderPage_deterministic`: the example engine and a copy
of its registry under a different base path render the example page
identically. -/
theorem renderPage_deterministic_witness :
    (RenderPage exEngine "" "app_layout" "home/index.html" []).1 =
      (RenderPage ⟨"other", exEngine.pages⟩ "" "app_layout"
        "home/index.html" []).1 :=
  renderPage_deterministic exEngine ⟨"other", exEngine.pages⟩
    "app_layout" "home/index.html" [] rfl rfl

/-- C9: for every engine built by `New`, every `RenderPage` call — whether
it succeeds or fails — leaves the engine's state unchanged: the returned
receiver is the input engine, with the page registry mapping and the stored
base path identical before and after the call. -/
theorem renderPage_preserves_engine (bp : String) (base : Dirent)
    (tc : Engine) (w layout page : String) (data : Data)
    (hN : New bp base = .ok tc) :
    (RenderPage tc w layout page data).2 = tc ∧
      ((RenderPage tc w layout page data).2).pages = tc.pages ∧
      ((RenderPage tc w layout page data).2).basePath = tc.basePath := by
  have h2 : (RenderPage tc w layout page data).2 = tc := by
    unfold RenderPage
    cases hl : tc.pages.lookup page with
    | none => rfl
    | some ts =>
      cases hE : ExecuteTemplate ts w layout data with
      | mk w' e =>
        cases e with
        | none => simp [hE]
        | some err => simp [hE]
  exact ⟨h2, by rw [h2], by rw [h2]⟩

/-- Witness for `renderPage_preserves_engine` at a concrete engine, on a
successful render. -/
theorem renderPage_preserves_engine_witness :
    (RenderPage exEngine "" "app_layout" "home/index.html" []).2 = exEngine ∧
      ((RenderPage exEngine "" "app_layout" "home/index.html" []).2).pages =
        exEngine.pages ∧
      ((RenderPage exEngine "" "app_layout" "home/index.html" []).2).basePath =
        exEngine.basePath :=
  renderPage_preserves_engine "templates" exFS exEngine ""
    "app_layout" "home/index.html" [] rfl

/-! ## The page registry's keys -/

/-- On success, the per-category loop stores exactly one entry per
non-directory leaf file, keyed `category/filename`, in listing order. -/
theorem compilePageFiles_keys (lay : TmplSet) (dn : String) (fs : List Entry) :
    ∀ ps, compilePageFiles lay dn fs = .ok ps →
      ps.map Prod.fst = leafKeysOfCat dn fs := by
  induction fs with
  | nil => intro ps h; cases h; rfl
  | cons f rest ih =>
    intro ps h
    cases f with
    | dir n es =>
      simp only [compilePageFiles] at h
      simpa [leafKeysOfCat] using ih ps h
    | file fn c =>
      cases c with
      | none => simp [compilePageFiles] at h
      | some defs =>
        simp only [compilePageFiles] at h
        cases hr : compilePageFiles lay dn rest with
        | error e => rw [hr] at h; simp at h
        | ok ps' =>
          rw [hr] at h
          simp only [exceptBind_ok, Except.ok.injEq] at h
          rw [← h]
          simp [leafKeysOfCat, ih ps' hr]

/-- On success, the pages loop stores exactly the per-category keys, per
category in listing order. -/
theorem compileCategories_keys (lay : TmplSet) (cats : List Entry) :
    ∀ ps, compileCategories lay cats = .ok ps →
      ps.map Prod.fst = leafKeys cats := by
  induction cats with
  | nil => intro ps h; cases h; rfl
  | cons c rest ih =>
    intro ps h
    cases c with
    | file n cc => simp [compileCategories] at h
    | dir n es =>
      simp only [compileCategories] at h
      cases h1 : compilePageFiles lay n es with
      | error e => rw [h1] at h; simp at h
      | ok ps1 =>
        rw [h1] at h
        cases h2 : compileCategories lay rest with
        | error e => rw [h2] at h; simp at h
        | ok ps2 =>
          rw [h2] at h
          simp only [exceptBind_ok, Except.ok.injEq] at h
          rw [← h]
          simp [leafKeys, compilePageFiles_keys lay n es ps1 h1, ih ps2 h2]

/-- Splitting at a separator absent from both prefixes is unambiguous. -/
theorem sep_split :
    ∀ (l1 l2 : List Char) {r1 r2 : List Char}, '/' ∉ l1 → '/' ∉ l2 →
      l1 ++ '/' :: r1 = l2 ++ '/' :: r2 → l1 = l2 ∧ r1 = r2 := by
  intro l1
  induction l1 with
  | nil =>
    intro l2 r1 r2 _ h2 h
    cases l2 with
    | nil => simpa using h
    | cons b bs =>
      simp only [List.nil_append, List.cons_append, List.cons.injEq] at h
      exact absurd (h.1 ▸ List.mem_cons_self b bs) h2
  | cons a as ih =>
    intro l2 r1 r2 h1 h2 h
    cases l2 with
    | nil =>
      simp only [List.nil_append, List.cons_append, List.cons.injEq] at h
      exact absurd (h.1 ▸ List.mem_cons_self a as) h1
    | cons b bs =>
      simp only [List.cons_append, List.cons.injEq] at h
      obtain ⟨hab, htl⟩ := h
      have h1' : '/' ∉ as := fun hm => h1 (List.mem_cons_of_mem a hm)
      have h2' : '/' ∉ bs := fun hm => h2 (List.mem_cons_of_mem b hm)
      obtain ⟨he, hr⟩ := ih bs h1' h2' htl
      exact ⟨by rw [hab, he], hr⟩

/-- The joined page key determines the category and the filename, for real
(slash-free) directory-entry names. -/
theorem joinKey_inj {c1 c2 f1 f2 : String}
    (h1 : ¬ '/' ∈ c1.data) (h2 : ¬ '/' ∈ c2.data)
    (h : c1 ++ "/" ++ f1 = c2 ++ "/" ++ f2) : c1 = c2 ∧ f1 = f2 := by
  have hd : c1.data ++ '/' :: f1.data = c2.data ++ '/' :: f2.data := by
    have hx := congrArg String.data h
    simpa [String.data_append, List.append_assoc] using hx
  obtain ⟨hc, hf⟩ := sep_split _ _ h1 h2 hd
  exact ⟨String.ext hc, String.ext hf⟩

/-- Left cancellation for string concatenation. -/
theorem strAppend_left_cancel {s t u : String} (h : s ++ t = s ++ u) :
    t = u := by
  have hx := congrArg String.data h
  simp only [String.data_append] at hx
  exact String.ext (List.append_cancel_left hx)

/-- Every per-category key names one of the category's entries. -/
theorem mem_leafKeysOfCat {k : String} (cn : String) (fs : List Entry) :
    k ∈ leafKeysOfCat cn fs → ∃ e ∈ fs, k = cn ++ "/" ++ Entry.name e := by
  induction fs with
  | nil => intro h; simp [leafKeysOfCat] at h
  | cons f rest ih =>
    intro h
    cases f with
    | dir n es =>
      obtain ⟨e, he, hk⟩ := ih (by simpa [leafKeysOfCat] using h)
      exact ⟨e, List.mem_cons_of_mem _ he, hk⟩
    | file fn c =>
      simp only [leafKeysOfCat, List.mem_cons] at h
      cases h with
      | inl h => exact ⟨.file fn c, List.mem_cons_self _ _, by simp [Entry.name, h]⟩
      | inr h =>
        obtain ⟨e, he, hk⟩ := ih h
        exact ⟨e, List.mem_cons_of_mem _ he, hk⟩

/-- Distinct filenames give distinct per-category keys. -/
theorem nodup_leafKeysOfCat (cn : String) (fs : List Entry)
    (h : (fs.map Entry.name).Nodup) : (leafKeysOfCat cn fs).Nodup := by
  induction fs with
  | nil => simp [leafKeysOfCat]
  | cons f rest ih =>
    have htl : (rest.map Entry.name).Nodup := (List.nodup_cons.mp (by simpa using h)).2
    cases f with
    | dir n es => simpa [leafKeysOfCat] using ih htl
    | file fn c =>
      have hhd : fn ∉ rest.map Entry.name :=
        (List.nodup_cons.mp (by simpa [Entry.name] using h)).1
      simp only [leafKeysOfCat]
      refine List.nodup_cons.mpr ⟨?_, ih htl⟩
      intro hmem
      obtain ⟨e, he, hk⟩ := mem_leafKeysOfCat cn rest hmem
      have : fn = Entry.name e := strAppend_left_cancel hk
      exact hhd (this ▸ List.mem_map_of_mem Entry.name he)

/-- Every registry key comes from some category directory. -/
theorem mem_leafKeys {k : String} (cats : List Entry) :
    k ∈ leafKeys cats →
      ∃ cn fs, Entry.dir cn fs ∈ cats ∧ k ∈ leafKeysOfCat cn fs := by
  induction cats with
  | nil => intro h; simp [leafKeys] at h
  | cons c rest ih =>
    intro h
    cases c with
    | file n cc =>
      obtain ⟨cn, fs, hm, hk⟩ := ih (by simpa [leafKeys] using h)
      exact ⟨cn, fs, List.mem_cons_of_mem _ hm, hk⟩
    | dir cn fs =>
      rcases List.mem_append.mp (by simpa [leafKeys] using h) with h1 | h2
      · exact ⟨cn, fs, List.mem_cons_self _ _, h1⟩
      · obtain ⟨cn', fs', hm, hk⟩ := ih h2
        exact ⟨cn', fs', List.mem_cons_of_mem _ hm, hk⟩

/-- For a well-formed pages tree the registry keys are pairwise distinct. -/
theorem nodup_leafKeys (cats : List Entry) (hwf : WfPages cats) :
    (leafKeys cats).Nodup := by
  induction cats with
  | nil => simp [leafKeys]
  | cons c rest ih =>
    obtain ⟨hnames, hall⟩ := hwf
    have hwf' : WfPages rest :=
      ⟨(List.nodup_cons.mp (by simpa using hnames)).2,
       fun c' hc' => hall c' (List.mem_cons_of_mem _ hc')⟩
    cases c with
    | file n cc => simpa [leafKeys] using ih hwf'
    | dir cn fs =>
      have hself := hall _ (List.mem_cons_self (Entry.dir cn fs) rest)
      have hcn : ¬ '/' ∈ cn.data := by simpa [Entry.name] using hself.1
      have hfs : (fs.map Entry.name).Nodup := hself.2.1
      have hcn_notin : cn ∉ rest.map Entry.name :=
        (List.nodup_cons.mp (by simpa [Entry.name] using hnames)).1
      simp only [leafKeys]
      refine (nodup_leafKeysOfCat cn fs hfs).append (ih hwf') ?_
      intro k hk1 hk2
      obtain ⟨e, he, hke⟩ := mem_leafKeysOfCat cn fs hk1
      obtain ⟨cn', fs', hdmem, hk'⟩ := mem_leafKeys rest hk2
      obtain ⟨e', he', hke'⟩ := mem_leafKeysOfCat cn' fs' hk'
      have hcn' : ¬ '/' ∈ cn'.data := by
        simpa [Entry.name] using (hall _ (List.mem_cons_of_mem _ hdmem)).1
      have hkk : cn ++ "/" ++ Entry.name e = cn' ++ "/" ++ Entry.name e' := by
        rw [← hke, ← hke']
      have hcc : cn = cn' := (joinKey_inj hcn hcn' hkk).1
      exact hcn_notin (hcc ▸ List.mem_map_of_mem Entry.name hdmem)

/-- Successful construction exposes the pages list. -/
theorem new_ok_pages (bp : String) (base : Dirent) (tc : Engine)
    (h : New bp base = .ok tc) : loadPages base = .ok tc.pages := by
  unfold New at h
  cases hl : loadPages base with
  | error e => rw [hl] at h; simp at h
  | ok ps =>
    rw [hl] at h
    simp only [exceptBind_ok, Except.ok.injEq] at h
    rw [← h]

/-- A successful `loadPages` is a successful pages loop over the pages
directory's entries (for some layout set). -/
theorem loadPages_ok_pages (base : Dirent) (ps : List (String × TmplSet))
    (pn : String) (cats : List Entry)
    (h : loadPages base = .ok ps)
    (hpages : findEntry base "pages" = some (.dir pn cats)) :
    ∃ layouts, compileCategories layouts cats = .ok ps := by
  unfold loadPages at h
  cases hr : loadRoot base with
  | error e => rw [hr] at h; simp at h
  | ok root =>
    rw [hr] at h
    simp only [exceptMapError_ok, exceptBind_ok] at h
    cases hp : loadPartials base root with
    | error e => rw [hp] at h; simp at h
    | ok partials =>
      rw [hp] at h
      simp only [exceptMapError_ok, exceptBind_ok] at h
      cases hlay : loadLayouts base partials with
      | error e => rw [hlay] at h; simp at h
      | ok layouts =>
        rw [hlay] at h
        simp only [exceptMapError_ok, exceptBind_ok] at h
        rw [hpages] at h
        exact ⟨layouts, h⟩

/-- C8: when construction succeeds, the page registry contains exactly one
entry per non-directory leaf file found under `pages/<category>/`, stored
under the forward-slash-joined key `category/filename` in listing order;
directories found at the leaf level are skipped and contribute no entries;
and for a well-formed directory tree the keys are pairwise distinct. -/
theorem pages_registry_keys (bp : String) (base : Dirent) (tc : Engine)
    (pn : String) (cats : List Entry)
    (hN : New bp base = .ok tc)
    (hpages : findEntry base "pages" = some (.dir pn cats))
    (hwf : WfPages cats) :
    tc.pages.map Prod.fst = leafKeys cats ∧
      (tc.pages.map Prod.fst).Nodup := by
  obtain ⟨layouts, hcc⟩ :=
    loadPages_ok_pages base tc.pages pn cats (new_ok_pages bp base tc hN) hpages
  have hkeys := compileCategories_keys layouts cats tc.pages hcc
  exact ⟨hkeys, hkeys ▸ nodup_leafKeys cats hwf⟩

/-! ## Clone-before-parse: no leakage between template sets -/

/-- Reading a freshly appended cell. -/
theorem getSet_append (σ : Store) (x : TmplSet) :
    Store.getSet (σ ++ [x]) σ.length = x := by
  induction σ with
  | nil => rfl
  | cons t σ ih => simpa [Store.getSet] using ih

/-- Appending a cell does not change existing cells. -/
theorem getSet_append_lt (σ : Store) (x : TmplSet) (i : Nat)
    (h : i < σ.length) : Store.getSet (σ ++ [x]) i = Store.getSet σ i := by
  induction σ generalizing i with
  | nil => simp at h
  | cons t σ ih =>
    cases i with
    | zero => rfl
    | succ j => simpa [Store.getSet] using ih j (by simpa using h)

/-- Reading a just-overwritten cell. -/
theorem getSet_setSet_self (σ : Store) (i : Nat) (x : TmplSet)
    (h : i < σ.length) : Store.getSet (Store.setSet σ i x) i = x := by
  induction σ generalizing i with
  | nil => simp at h
  | cons t σ ih =>
    cases i with
    | zero => rfl
    | succ j => simpa [Store.getSet, Store.setSet] using ih j (by simpa using h)

/-- Overwriting one cell does not change the others. -/
theorem getSet_setSet_ne (σ : Store) (i j : Nat) (x : TmplSet) (h : i ≠ j) :
    Store.getSet (Store.setSet σ i x) j = Store.getSet σ j := by
  induction σ generalizing i j with
  | nil => rfl
  | cons t σ ih =>
    cases i with
    | zero =>
      cases j with
      | zero => exact absurd rfl h
      | succ j' => rfl
    | succ i' =>
      cases j with
      | zero => rfl
      | succ j' =>
        simpa [Store.getSet, Store.setSet] using ih i' j' fun he => h (by rw [he])

/-- Overwriting preserves the store's size. -/
theorem length_setSet (σ : Store) (i : Nat) (x : TmplSet) :
    (Store.setSet σ i x).length = σ.length := by
  induction σ generalizing i with
  | nil => rfl
  | cons t σ ih =>
    cases i with
    | zero => rfl
    | succ j => simpa [Store.setSet] using ih j

/-- The heap-level per-category loop: it never touches a pre-existing cell,
every page it records lives in a fresh cell, the recorded cells are
pairwise distinct, and projecting the final cell contents yields exactly
the value-level loop's result computed from the layout cell's (unchanged)
contents. -/
theorem compilePageFilesSt_spec (lid : Nat) (dn : String) (fs : List Entry) :
    ∀ σ σ' ps, lid < σ.length →
      compilePageFilesSt lid dn σ fs = .ok (σ', ps) →
      (∀ i, i < σ.length → Store.getSet σ' i = Store.getSet σ i) ∧
        σ.length ≤ σ'.length ∧
        (∀ p ∈ ps, σ.length ≤ p.2 ∧ p.2 < σ'.length) ∧
        (ps.map Prod.snd).Nodup ∧
        compilePageFiles (Store.getSet σ lid) dn fs =
          .ok (ps.map fun p => (p.1, Store.getSet σ' p.2)) := by
  induction fs with
  | nil =>
    intro σ σ' ps _ h
    simp only [compilePageFilesSt, Except.ok.injEq, Prod.mk.injEq] at h
    obtain ⟨h1, h2⟩ := h
    subst h1; subst h2
    exact ⟨fun i _ => rfl, Nat.le_refl _, by simp, by simp, by simp [compilePageFiles]⟩
  | cons f rest ih =>
    intro σ σ' ps hlid h
    cases f with
    | dir n es =>
      obtain ⟨h1, h2, h3, h4, h5⟩ := ih σ σ' ps hlid (by simpa [compilePageFilesSt] using h)
      exact ⟨h1, h2, h3, h4, by simpa [compilePageFiles] using h5⟩
    | file fn c =>
      cases c with
      | none => simp [compilePageFilesSt] at h
      | some defs =>
        simp only [compilePageFilesSt, cloneOp, parseFilesOp] at h
        set σ1 : Store := σ ++ [Store.getSet σ lid] with hσ1
        set σ2 : Store :=
          Store.setSet σ1 σ.length (parseDefs (Store.getSet σ1 σ.length) defs) with hσ2
        have hlen1 : σ1.length = σ.length + 1 := by simp [hσ1]
        have hlen2 : σ2.length = σ.length + 1 := by rw [hσ2, length_setSet, hlen1]
        have hget1 : Store.getSet σ1 σ.length = Store.getSet σ lid := getSet_append σ _
        have hget2 : Store.getSet σ2 σ.length =
            parseDefs (Store.getSet σ lid) defs := by
          rw [hσ2, getSet_setSet_self _ _ _ (by rw [hlen1]; exact Nat.lt_succ_self _), hget1]
        have hpres2 : ∀ i, i < σ.length → Store.getSet σ2 i = Store.getSet σ i := by
          intro i hi
          rw [hσ2, getSet_setSet_ne _ _ _ _ (Nat.ne_of_gt hi), hσ1, getSet_append_lt _ _ _ hi]
        cases hrec : compilePageFilesSt lid dn σ2 rest with
        | error e => rw [hrec] at h; simp at h
        | ok out =>
          obtain ⟨σ3, ps'⟩ := out
          rw [hrec] at h
          simp only [Except.ok.injEq, Prod.mk.injEq] at h
          obtain ⟨hs, hp⟩ := h
          subst hs
          have hlid2 : lid < σ2.length := by
            rw [hlen2]; exact Nat.lt_succ_of_lt hlid
          obtain ⟨P1, P2, P3, P4, P5⟩ := ih σ2 σ3 ps' hlid2 hrec
          have hlid_pres : Store.getSet σ2 lid = Store.getSet σ lid :=
            hpres2 lid hlid
          refine ⟨?_, ?_, ?_, ?_, ?_⟩
          · intro i hi
            rw [P1 i (by rw [hlen2]; exact Nat.lt_succ_of_lt hi), hpres2 i hi]
          · calc σ.length ≤ σ2.length := by rw [hlen2]; exact Nat.le_succ _
              _ ≤ σ3.length := P2
          · intro p hp'
            rw [← hp] at hp'
            rcases List.mem_cons.mp hp' with h' | h'
            · subst h'
              refine ⟨Nat.le_refl _, ?_⟩
              calc σ.length < σ2.length := by rw [hlen2]; exact Nat.lt_succ_self _
                _ ≤ σ3.length := P2
            · obtain ⟨ha, hb⟩ := P3 p h'
              exact ⟨le_trans (by rw [hlen2]; exact Nat.le_succ _) ha, hb⟩
          · rw [← hp]
            simp only [List.map_cons, List.nodup_cons]
            refine ⟨?_, P4⟩
            intro hmem
            obtain ⟨p, hpmem, hpeq⟩ := List.mem_map.mp hmem
            have := (P3 p hpmem).1
            rw [hpeq] at this
            rw [hlen2] at this
            exact Nat.not_succ_le_self _ (le_trans this (Nat.le_refl _))
          · rw [← hp]
            simp only [compilePageFiles, List.map_cons]
            rw [hlid_pres] at P5
            rw [P5]
            simp only [exceptBind_ok]
            have hhead : parseDefs (clone (Store.getSet σ lid)) defs =
                Store.getSet σ3 σ.length := by
              rw [P1 σ.length (by rw [hlen2]; exact Nat.lt_succ_self _), hget2]
              rfl
            rw [hhead]

/-- The heap-level pages loop: pre-existing cells (the layout set included)
are never mutated, the recorded page cells are fresh and pairwise distinct,
and projecting their final contents yields exactly the value-level loop's
result computed from the layout cell's contents. -/
theorem compileCategoriesSt_spec (lid : Nat) (cats : List Entry) :
    ∀ σ σ' ps, lid < σ.length →
      compileCategoriesSt lid σ cats = .ok (σ', ps) →
      (∀ i, i < σ.length → Store.getSet σ' i = Store.getSet σ i) ∧
        σ.length ≤ σ'.length ∧
        (∀ p ∈ ps, σ.length ≤ p.2 ∧ p.2 < σ'.length) ∧
        (ps.map Prod.snd).Nodup ∧
        compileCategories (Store.getSet σ lid) cats =
          .ok (ps.map fun p => (p.1, Store.getSet σ' p.2)) := by
  induction cats with
  | nil =>
    intro σ σ' ps _ h
    simp only [compileCategoriesSt, Except.ok.injEq, Prod.mk.injEq] at h
    obtain ⟨h1, h2⟩ := h
    subst h1; subst h2
    exact ⟨fun i _ => rfl, Nat.le_refl _, by simp, by simp, by simp [compileCategories]⟩
  | cons c rest ih =>
    intro σ σ' ps hlid h
    cases c with
    | file n cc => simp [compileCategoriesSt] at h
    | dir n es =>
      simp only [compileCategoriesSt] at h
      cases h1 : compilePageFilesSt lid n σ es with
      | error e => rw [h1] at h; simp at h
      | ok out1 =>
        obtain ⟨σ1, ps1⟩ := out1
        simp only [h1] at h
        cases h2 : compileCategoriesSt lid σ1 rest with
        | error e => simp only [h2] at h; exact absurd h (by simp)
        | ok out2 =>
          obtain ⟨σ2, ps2⟩ := out2
          simp only [h2, Except.ok.injEq, Prod.mk.injEq] at h
          obtain ⟨hs, hp⟩ := h
          subst hs
          obtain ⟨Q1, Q2, Q3, Q4, Q5⟩ := compilePageFilesSt_spec lid n es σ σ1 ps1 hlid h1
          have hlid1 : lid < σ1.length := Nat.lt_of_lt_of_le hlid Q2
          obtain ⟨R1, R2, R3, R4, R5⟩ := ih σ1 σ2 ps2 hlid1 h2
          refine ⟨?_, le_trans Q2 R2, ?_, ?_, ?_⟩
          · intro i hi
            rw [R1 i (Nat.lt_of_lt_of_le hi Q2), Q1 i hi]
          · intro p hp'
            rw [← hp] at hp'
            rcases List.mem_append.mp hp' with h' | h'
            · obtain ⟨ha, hb⟩ := Q3 p h'
              exact ⟨ha, Nat.lt_of_lt_of_le hb R2⟩
            · obtain ⟨ha, hb⟩ := R3 p h'
              exact ⟨le_trans Q2 ha, hb⟩
          · rw [← hp]
            simp only [List.map_append]
            refine Q4.append R4 ?_
            intro a ha1 ha2
            obtain ⟨p, hpmem, hpeq⟩ := List.mem_map.mp ha1
            obtain ⟨q, hqmem, hqeq⟩ := List.mem_map.mp ha2
            have hlt : p.2 < σ1.length := (Q3 p hpmem).2
            have hge : σ1.length ≤ q.2 := (R3 q hqmem).1
            rw [hpeq] at hlt
            rw [hqeq] at hge
            exact Nat.lt_irrefl a (Nat.lt_of_lt_of_le hlt hge)
          · rw [← hp]
            simp only [compileCategories, List.map_append]
            have hmap1 : ps1.map (fun p => (p.1, Store.getSet σ2 p.2)) =
                ps1.map (fun p => (p.1, Store.getSet σ1 p.2)) := by
              apply List.map_congr_left
              intro p hpmem
              rw [R1 p.2 (Q3 p hpmem).2]
            rw [hmap1, Q5]
            have hlidc : Store.getSet σ1 lid = Store.getSet σ lid := Q1 lid hlid
            rw [hlidc] at R5
            rw [R5]
            rfl

/-- C7: in the heap-level model of construction, a clone is taken before
every parse-into, so a template set is never mutated once it has served as
the basis of a derived set: after the whole pages loop, the shared layout
cell — and every other pre-existing cell — holds exactly its original
contents, the per-page cells are pairwise distinct fresh cells, and each
page's final contents equal the value-level result of parsing that page's
own file into a clone of the (unchanged) layout set, so parsing one page
never adds or changes fragments in the layout set or any other page's
set. -/
theorem pageCompile_no_leakage (lid : Nat) (σ0 σf : Store) (cats : List Entry)
    (ps : List (String × Nat))
    (hlid : lid < σ0.length)
    (h : compileCategoriesSt lid σ0 cats = .ok (σf, ps)) :
    Store.getSet σf lid = Store.getSet σ0 lid ∧
      (∀ i, i < σ0.length → Store.getSet σf i = Store.getSet σ0 i) ∧
      (ps.map Prod.snd).Nodup ∧
      (∀ p ∈ ps, σ0.length ≤ p.2) ∧
      compileCategories (Store.getSet σ0 lid) cats =
        .ok (ps.map fun p => (p.1, Store.getSet σf p.2)) := by
  obtain ⟨h1, _, h3, h4, h5⟩ := compileCategoriesSt_spec lid cats σ0 σf ps hlid h
  exact ⟨h1 lid hlid, h1, h4, fun p hp => (h3 p hp).1, h5⟩

/-- Witness for `pageCompile_no_leakage` on the example directory's pages
tree, starting from a one-cell store holding the layout set. -/
theorem pageCompile_no_leakage_witness :
    Store.getSet [exLayoutsSet, exPageSet] 0 = Store.getSet [exLayoutsSet] 0 ∧
      (∀ i, i < ([exLayoutsSet] : Store).length →
        Store.getSet [exLayoutsSet, exPageSet] i = Store.getSet [exLayoutsSet] i) ∧
      (([("home/index.html", 1)] : List (String × Nat)).map Prod.snd).Nodup ∧
      (∀ p ∈ ([("home/index.html", 1)] : List (String × Nat)),
        ([exLayoutsSet] : Store).length ≤ p.2) ∧
      compileCategories (Store.getSet [exLayoutsSet] 0) [.dir "home" [indexFile]] =
        .ok (([("home/index.html", 1)] : List (String × Nat)).map fun p =>
          (p.1, Store.getSet [exLayoutsSet, exPageSet] p.2)) :=
  pageCompile_no_leakage 0 [exLayoutsSet] [exLayoutsSet, exPageSet]
    [.dir "home" [indexFile]] [("home/index.html", 1)] (by decide) rfl

/-- Witness for `pages_registry_keys` on the example directory. -/
theorem pages_registry_keys_witness :
    exEngine.pages.map Prod.fst = leafKeys [.dir "home" [indexFile]] ∧
      (exEngine.pages.map Prod.fst).Nodup :=
  pages_registry_keys "templates" exFS exEngine "pages"
    [.dir "home" [indexFile]] rfl rfl
    ⟨by simp [Entry.name], by
      intro c hc
      simp only [List.mem_singleton] at hc
      subst hc
      exact ⟨by decide, by decide, by
        intro f hf
        simp only [indexFile, List.mem_singleton] at hf
        subst hf
        decide⟩⟩

end Gotemp
